import Mathlib

/-!
# MurmurHash3 x64-128 as used by the Cassandra partitioner (`native/murmur_nif.c`)

A shallow embedding of the C function `x64_128` and of the helpers it calls
(`rotl64`, `getblock`, `fmix`).

Conventions of the embedding:

* an `int64_t` value is an `Int` in the range `[-2^63, 2^63)`; every arithmetic
  or bitwise operation on `int64_t` acts on the two's-complement bit pattern
  (`toU64`) and is brought back into the signed range by `toI64`, i.e. signed
  overflow wraps around;
* the key buffer is a list of octets; a read outside the buffer yields `none`;
* `getblock` reads a 64-bit word on a little-endian host;
* `len` (a C `int`) is taken non-negative and `seed` is a `uint32_t`;
* a call is run in a memory, which it returns next to its value, and the key
  pointer is an address of this memory.
-/

namespace Murmur

/-- An octet of the key buffer. -/
abbrev Byte := Fin 256

/-- A `uint32_t` value. -/
abbrev Word32 := Fin 4294967296

/-- The cast `(uint64_t) x`: the two's-complement bit pattern of `x`. -/
def toU64 (x : Int) : Nat := (x % ((2 ^ 64 : Nat) : Int)).toNat

/-- The cast `(int64_t) n`: the signed value whose bit pattern is `n` modulo `2^64`. -/
def toI64 (n : Nat) : Int :=
  if n % 2 ^ 64 < 2 ^ 63 then ((n % 2 ^ 64 : Nat) : Int)
  else ((n % 2 ^ 64 : Nat) : Int) - ((2 ^ 64 : Nat) : Int)

/-- The cast `(int64_t) b` of an `int8_t` stored as the octet `b` (sign extension). -/
def toI8 (b : Byte) : Int :=
  if b.val < 128 then (b.val : Int) else (b.val : Int) - 256

/-- Multiplication `a * b` on `int64_t`. -/
def mul64 (a b : Int) : Int := toI64 (toU64 (a * b))

/-- Addition `a + b` on `int64_t`. -/
def add64 (a b : Int) : Int := toI64 (toU64 (a + b))

/-- Bitwise `a ^ b` on `int64_t`. -/
def xor64 (a b : Int) : Int := toI64 (toU64 a ^^^ toU64 b)

/-- Bitwise `a | b` on `int64_t`. -/
def or64 (a b : Int) : Int := toI64 (toU64 a ||| toU64 b)

/-- Left shift `a << r` on `int64_t`. -/
def shl64 (a : Int) (r : Nat) : Int := toI64 (toU64 a <<< r)

/-- The logical right shift `(int64_t) (((uint64_t) a) >> r)`. -/
def lshr64 (a : Int) (r : Nat) : Int := toI64 (toU64 a >>> r)

/-- `rotl64`: `(x << r) | ((int64_t) (((uint64_t) x) >> (64 - r)))`. -/
def rotl64 (x : Int) (r : Nat) : Int :=
  or64 (shl64 x r) (lshr64 x (64 - r))

/-- The little-endian value of a group of octets. -/
def le64 (bs : List Byte) : Nat :=
  bs.foldr (fun b acc => b.val + 256 * acc) 0

/-- Read `n` consecutive octets of `p` starting at offset `off`. -/
def readBytes (p : List Byte) (off : Nat) : Nat → Option (List Byte)
  | 0 => some []
  | n + 1 =>
    match p[off]?, readBytes p (off + 1) n with
    | some b, some rest => some (b :: rest)
    | _, _ => none

/-- `getblock`: `p[i]` where `p` is the buffer seen as an array of `int64_t`. -/
def getblock (p : List Byte) (i : Nat) : Option Int :=
  (readBytes p (8 * i) 8).map fun bs => toI64 (le64 bs)

/-- `fmix`: the finalization mix. -/
def fmix (k : Int) : Int :=
  let k := xor64 k (lshr64 k 33)
  let k := mul64 k (toI64 0xff51afd7ed558ccd)
  let k := xor64 k (lshr64 k 33)
  let k := mul64 k (toI64 0xc4ceb9fe1a85ec53)
  let k := xor64 k (lshr64 k 33)
  k

/-- The constant `c1` of `x64_128`. -/
def c1 : Int := toI64 0x87c37b91114253d5

/-- The constant `c2` of `x64_128`. -/
def c2 : Int := toI64 0x4cf5ad432745937f

/-- The statement `k1 *= c1; k1 = ROTL64(k1,31); k1 *= c2;` of `x64_128`. -/
def mixK1 (k1 : Int) : Int :=
  let k1 := mul64 k1 c1
  let k1 := rotl64 k1 31
  let k1 := mul64 k1 c2
  k1

/-- The statement `k2 *= c2; k2 = ROTL64(k2,33); k2 *= c1;` of `x64_128`. -/
def mixK2 (k2 : Int) : Int :=
  let k2 := mul64 k2 c2
  let k2 := rotl64 k2 33
  let k2 := mul64 k2 c1
  k2

/-- The body of the block loop of `x64_128`, after the two block words are read. -/
def bodyStep (h : Int × Int) (k1 k2 : Int) : Int × Int :=
  let h1 := h.1
  let h2 := h.2
  let k1 := mixK1 k1
  let h1 := xor64 h1 k1
  let h1 := rotl64 h1 27
  let h1 := add64 h1 h2
  let h1 := add64 (mul64 h1 5) 0x52dce729
  let k2 := mixK2 k2
  let h2 := xor64 h2 k2
  let h2 := rotl64 h2 31
  let h2 := add64 h2 h1
  let h2 := add64 (mul64 h2 5) 0x38495ab5
  (h1, h2)

/-- The loop `for (i = 0; i < nblocks; i++)` of `x64_128`: `n` is the number of
iterations left (`nblocks - i`), `h` the lanes `(h1, h2)`. -/
def bodyLoop (blocks : List Byte) : Nat → Nat → Int × Int → Option (Int × Int)
  | 0, _, h => some h
  | n + 1, i, h =>
    match getblock blocks (i * 2 + 0), getblock blocks (i * 2 + 1) with
    | some k1, some k2 => bodyLoop blocks n (i + 1) (bodyStep h k1 k2)
    | _, _ => none

/-- The variables the tail switch of `x64_128` works on. -/
structure TailState where
  h1 : Int
  h2 : Int
  k1 : Int
  k2 : Int
deriving DecidableEq, Repr

/-- The statements under one `case` label of the tail switch; `tail j` reads
`(int64_t) (tail[j])`. -/
def tailCase (tail : Nat → Option Int) : Nat → TailState → Option TailState
  | 15, s => (tail 14).map fun b => { s with k2 := xor64 s.k2 (shl64 b 48) }
  | 14, s => (tail 13).map fun b => { s with k2 := xor64 s.k2 (shl64 b 40) }
  | 13, s => (tail 12).map fun b => { s with k2 := xor64 s.k2 (shl64 b 32) }
  | 12, s => (tail 11).map fun b => { s with k2 := xor64 s.k2 (shl64 b 24) }
  | 11, s => (tail 10).map fun b => { s with k2 := xor64 s.k2 (shl64 b 16) }
  | 10, s => (tail 9).map fun b => { s with k2 := xor64 s.k2 (shl64 b 8) }
  | 9, s => (tail 8).map fun b =>
      let k2 := xor64 s.k2 (shl64 b 0)
      let k2 := mixK2 k2
      { s with k2 := k2, h2 := xor64 s.h2 k2 }
  | 8, s => (tail 7).map fun b => { s with k1 := xor64 s.k1 (shl64 b 56) }
  | 7, s => (tail 6).map fun b => { s with k1 := xor64 s.k1 (shl64 b 48) }
  | 6, s => (tail 5).map fun b => { s with k1 := xor64 s.k1 (shl64 b 40) }
  | 5, s => (tail 4).map fun b => { s with k1 := xor64 s.k1 (shl64 b 32) }
  | 4, s => (tail 3).map fun b => { s with k1 := xor64 s.k1 (shl64 b 24) }
  | 3, s => (tail 2).map fun b => { s with k1 := xor64 s.k1 (shl64 b 16) }
  | 2, s => (tail 1).map fun b => { s with k1 := xor64 s.k1 (shl64 b 8) }
  | 1, s => (tail 0).map fun b =>
      let k1 := xor64 s.k1 (shl64 b 0)
      let k1 := mixK1 k1
      { s with k1 := k1, h1 := xor64 s.h1 k1 }
  | _, s => some s

/-- The tail switch entered at label `c`: the cases `c, c-1, ..., 1` run in this
order (no `break` in the source); with `c = 0` no label matches. -/
def tailSwitch (tail : Nat → Option Int) : Nat → TailState → Option TailState
  | 0, s => some s
  | c + 1, s =>
    match tailCase tail (c + 1) s with
    | some s' => tailSwitch tail c s'
    | none => none

/-- The finalization of `x64_128`; the returned value is `h1`. -/
def finalize (h1 h2 : Int) (len : Nat) : Int :=
  let h1 := xor64 h1 (len : Int)
  let h2 := xor64 h2 (len : Int)
  let h1 := add64 h1 h2
  let h2 := add64 h2 h1
  let h1 := fmix h1
  let h2 := fmix h2
  let h1 := add64 h1 h2
  let _h2 := add64 h2 h1
  h1

/-- `x64_128 key len seed`. -/
def x64_128 (key : List Byte) (len : Nat) (seed : Word32) : Option Int :=
  let nblocks := len / 16
  let h1 : Int := (seed.val : Int)
  let h2 : Int := (seed.val : Int)
  match bodyLoop key nblocks 0 (h1, h2) with
  | none => none
  | some h =>
    match tailSwitch (fun j => (key[nblocks * 16 + j]?).map toI8) (len &&& 15)
        ⟨h.1, h.2, 0, 0⟩ with
    | none => none
    | some s => some (finalize s.h1 s.h2 len)

/-! ## A call of `x64_128` in the memory of the process -/

/-- Iterate over the tail bytes from index `hi - 1` down to index `lo`, folding
(XOR) each byte, taken as a signed octet, into `k` at shift `8 * (index - base)`. -/
def foldDown (tail : List Byte) (base lo : Nat) : Nat → Int → Int
  | 0, k => k
  | hi + 1, k =>
    if lo ≤ hi then
      foldDown tail base lo hi (xor64 k (shl64 (toI8 (tail.getD hi 0)) (8 * (hi - base))))
    else k

/-- The tail phase on the lanes `h = (h1, h2)`, worded as a descending loop: `k2`
is built from the tail bytes at indices `tailLen - 1` down to `lo2` and mixed into
`h2` when one of these bytes is present; `k1` is built from the tail bytes at
indices `min tailLen 8 - 1` down to `0` and mixed into `h1` when one of these
bytes is present. -/
def tailPhaseSpec (lo2 : Nat) (tail : List Byte) (h : Int × Int) : Int × Int :=
  let tailLen := tail.length
  let k2 := foldDown tail 8 lo2 tailLen 0
  let h2 := if lo2 < tailLen then xor64 h.2 (mixK2 k2) else h.2
  let k1 := foldDown tail 0 0 (min tailLen 8) 0
  let h1 := if 0 < tailLen then xor64 h.1 (mixK1 k1) else h.1
  (h1, h2)

/-- The lanes `(h1, h2)` after the tail switch of `x64_128` entered with the lanes
`h`, for a key of `len` bytes with `nblocks` blocks. -/
def tailLanes (key : List Byte) (nblocks len : Nat) (h : Int × Int) : Option (Int × Int) :=
  (tailSwitch (fun j => (key[nblocks * 16 + j]?).map toI8) (len &&& 15)
    ⟨h.1, h.2, 0, 0⟩).map fun s => (s.h1, s.h2)

/-! ## The reference algorithm on unsigned 64-bit words -/

namespace Ref

/-- The 64-bit left rotation `(x << r) | (x >> (64 - r))` on `uint64_t`. -/
def rotl (x r : Nat) : Nat := (x <<< r) % 2 ^ 64 ||| x >>> (64 - r)

/-- The avalanche mix `fmix64` on `uint64_t`, with logical shifts. -/
def fmix64 (k : Nat) : Nat :=
  let k := k ^^^ (k >>> 33)
  let k := (k * 0xff51afd7ed558ccd) % 2 ^ 64
  let k := k ^^^ (k >>> 33)
  let k := (k * 0xc4ceb9fe1a85ec53) % 2 ^ 64
  let k := k ^^^ (k >>> 33)
  k

/-- The multiplicative constant `c1`. -/
def C1 : Nat := 0x87c37b91114253d5

/-- The multiplicative constant `c2`. -/
def C2 : Nat := 0x4cf5ad432745937f

/-- The mixing of a first-lane word: `rotl64(k * c1, 31) * c2`. -/
def mix1 (k : Nat) : Nat := (rotl ((k * C1) % 2 ^ 64) 31 * C2) % 2 ^ 64

/-- The mixing of a second-lane word: `rotl64(k * c2, 33) * c1`. -/
def mix2 (k : Nat) : Nat := (rotl ((k * C2) % 2 ^ 64) 33 * C1) % 2 ^ 64

/-- One step of the block phase on the lanes `h = (h1, h2)` with block words `k1`, `k2`. -/
def blockStep (h : Nat × Nat) (k1 k2 : Nat) : Nat × Nat :=
  let h1 := h.1 ^^^ mix1 k1
  let h1 := (rotl h1 27 + h.2) % 2 ^ 64
  let h1 := (h1 * 5 + 0x52dce729) % 2 ^ 64
  let h2 := h.2 ^^^ mix2 k2
  let h2 := (rotl h2 31 + h1) % 2 ^ 64
  let h2 := (h2 * 5 + 0x38495ab5) % 2 ^ 64
  (h1, h2)

/-- The `i`-th 16-byte block of `data`. -/
def block (data : List Byte) (i : Nat) : List Byte := (data.drop (16 * i)).take 16

/-- The block phase: the step folded over the first `n` blocks of `data`, in order;
the two words of a block are its bytes 0..7 and 8..15, little-endian. -/
def blockPhase (data : List Byte) (n : Nat) (h : Nat × Nat) : Nat × Nat :=
  (List.range n).foldl
    (fun h i => blockStep h (le64 ((block data i).take 8)) (le64 ((block data i).drop 8))) h

/-- The XOR over the positions `i` of `bs` of `widen bs[i] << (sh + 8*i)`, on 64 bits. -/
def tailWord (widen : Byte → Nat) : List Byte → Nat → Nat
  | [], _ => 0
  | b :: bs, sh => ((widen b <<< sh) % 2 ^ 64) ^^^ tailWord widen bs (sh + 8)

/-- The tail phase: the tail bytes 8.. go to the second lane, the tail bytes 0..7
to the first lane; a lane is mixed in only when it received a byte. -/
def tailMix (widen : Byte → Nat) (tail : List Byte) (h : Nat × Nat) : Nat × Nat :=
  let h2 := if 8 < tail.length then h.2 ^^^ mix2 (tailWord widen (tail.drop 8) 0) else h.2
  let h1 := if 0 < tail.length then h.1 ^^^ mix1 (tailWord widen (tail.take 8) 0) else h.1
  (h1, h2)

/-- The finalization, giving the 128-bit digest as its two 64-bit halves. -/
def finalMix (h : Nat × Nat) (len : Nat) : Nat × Nat :=
  let h1 := h.1 ^^^ len
  let h2 := h.2 ^^^ len
  let h1 := (h1 + h2) % 2 ^ 64
  let h2 := (h2 + h1) % 2 ^ 64
  let h1 := fmix64 h1
  let h2 := fmix64 h2
  let h1 := (h1 + h2) % 2 ^ 64
  let h2 := (h2 + h1) % 2 ^ 64
  (h1, h2)

/-- A tail byte read as an unsigned octet. -/
def zext (b : Byte) : Nat := b.val

/-- A tail byte read as a signed octet, sign-extended to 64 bits. -/
def sext (b : Byte) : Nat := if b.val < 128 then b.val else b.val + (2 ^ 64 - 256)

/-- MurmurHash3 x64-128 of `data` with `seed`; `widen` is the way a tail byte is
widened to 64 bits. The result is the pair (low half, high half) of the digest. -/
def murmur3_x64_128 (widen : Byte → Nat) (data : List Byte) (seed : Nat) : Nat × Nat :=
  let n := data.length / 16
  let h := blockPhase data n (seed, seed)
  let h := tailMix widen (data.drop (16 * n)) h
  finalMix h data.length

/-- The xor-shift `k ^ (k >> 33)` of `fmix64`. -/
def xorShift33 (k : Nat) : Nat := k ^^^ (k >>> 33)

/-- The inverse of `fmix64` on 64-bit words: the steps of `fmix64` undone in reverse
order, with the inverses modulo `2^64` of the two multipliers. -/
def unfmix64 (k : Nat) : Nat :=
  let k := xorShift33 k
  let k := (k * 0x9cb4b2f8129337db) % 2 ^ 64
  let k := xorShift33 k
  let k := (k * 0x4f74430c22a54005) % 2 ^ 64
  let k := xorShift33 k
  k

/-- The XOR, over the tail indices `i` with `lo ≤ i < hi`, of the sign-extended byte
`tail[i]` shifted left by `8 * (i - lo)` bits, on 64 bits. -/
def tailXor (tail : List Byte) (lo hi : Nat) : Nat :=
  (List.range' lo (hi - lo)).foldl
    (fun k i => k ^^^ (sext (tail.getD i 0) <<< (8 * (i - lo))) % 2 ^ 64) 0

/-- The value `m1` XORed into the first lane by a tail of `t` bytes:
`rotl64(K1*c1,31)*c2` for `t ≥ 1`, with `K1` the XOR over the indices `0..min(t,8)-1`,
and `0` for an empty tail. -/
def tailMask1 (tail : List Byte) : Nat :=
  if 1 ≤ tail.length then mix1 (tailXor tail 0 (min tail.length 8)) else 0

/-- The value `m2` XORed into the second lane by a tail of `t` bytes:
`rotl64(K2*c2,33)*c1` for `t ≥ 9`, with `K2` the XOR over the indices `8..t-1`,
and `0` for a shorter tail. -/
def tailMask2 (tail : List Byte) : Nat :=
  if 9 ≤ tail.length then mix2 (tailXor tail 8 tail.length) else 0

end Ref

/-! ## Signed values and their bit patterns -/

theorem toU64_lt (x : Int) : toU64 x < 2 ^ 64 := by
  unfold toU64; omega

theorem toU64_toI64 (n : Nat) : toU64 (toI64 n) = n % 2 ^ 64 := by
  unfold toU64 toI64
  split <;> omega

theorem toI64_range (n : Nat) : -(2 ^ 63 : Int) ≤ toI64 n ∧ toI64 n < 2 ^ 63 := by
  unfold toI64
  split <;> omega

theorem toI64_toU64 (x : Int) (h1 : -(2 ^ 63 : Int) ≤ x) (h2 : x < 2 ^ 63) :
    toI64 (toU64 x) = x := by
  unfold toU64 toI64
  split <;> omega

theorem toU64_ofNat (n : Nat) : toU64 (n : Int) = n % 2 ^ 64 := by
  unfold toU64; omega

theorem toU64_cast (a : Int) : ((toU64 a : Nat) : Int) = a % 18446744073709551616 := by
  unfold toU64; omega

theorem toU64_mul (a b : Int) : toU64 (a * b) = (toU64 a * toU64 b) % 2 ^ 64 := by
  have h : ((toU64 (a * b) : Nat) : Int) = (((toU64 a * toU64 b) % 18446744073709551616 : Nat) : Int) := by
    push_cast
    rw [toU64_cast, toU64_cast, toU64_cast, ← Int.mul_emod]
  have h2 : toU64 (a * b) = (toU64 a * toU64 b) % 18446744073709551616 := by exact_mod_cast h
  rw [h2]; norm_num

theorem toU64_add (a b : Int) : toU64 (a + b) = (toU64 a + toU64 b) % 2 ^ 64 := by
  unfold toU64; omega

theorem toU64_mul64 (a b : Int) : toU64 (mul64 a b) = (toU64 a * toU64 b) % 2 ^ 64 := by
  unfold mul64
  rw [toU64_toI64, Nat.mod_eq_of_lt (toU64_lt _), toU64_mul]

theorem toU64_add64 (a b : Int) : toU64 (add64 a b) = (toU64 a + toU64 b) % 2 ^ 64 := by
  unfold add64
  rw [toU64_toI64, Nat.mod_eq_of_lt (toU64_lt _), toU64_add]

theorem toU64_xor64 (a b : Int) : toU64 (xor64 a b) = toU64 a ^^^ toU64 b := by
  unfold xor64
  rw [toU64_toI64, Nat.mod_eq_of_lt (Nat.xor_lt_two_pow (toU64_lt _) (toU64_lt _))]

theorem toU64_or64 (a b : Int) : toU64 (or64 a b) = toU64 a ||| toU64 b := by
  unfold or64
  rw [toU64_toI64, Nat.mod_eq_of_lt (Nat.or_lt_two_pow (toU64_lt _) (toU64_lt _))]

theorem toU64_shl64 (a : Int) (r : Nat) : toU64 (shl64 a r) = (toU64 a <<< r) % 2 ^ 64 := by
  unfold shl64
  rw [toU64_toI64]

theorem toU64_lshr64 (a : Int) (r : Nat) : toU64 (lshr64 a r) = toU64 a >>> r := by
  unfold lshr64
  rw [toU64_toI64]
  apply Nat.mod_eq_of_lt
  rw [Nat.shiftRight_eq_div_pow]
  exact lt_of_le_of_lt (Nat.div_le_self _ _) (toU64_lt _)

/-- The bit patterns of a pair of lanes. -/
def lanesU (h : Int × Int) : Nat × Nat := (toU64 h.1, toU64 h.2)

theorem toI64_toU64_toI64 (n : Nat) : toI64 (toU64 (toI64 n)) = toI64 n :=
  toI64_toU64 _ (toI64_range n).1 (toI64_range n).2

theorem toU64_rotl64 (x : Int) (r : Nat) : toU64 (rotl64 x r) = Ref.rotl (toU64 x) r := by
  unfold rotl64 Ref.rotl
  rw [toU64_or64, toU64_shl64, toU64_lshr64]

theorem toU64_fmix (k : Int) : toU64 (fmix k) = Ref.fmix64 (toU64 k) := by
  simp only [fmix, Ref.fmix64, toU64_xor64, toU64_mul64, toU64_lshr64, toU64_toI64]
  norm_num

theorem toU64_c1 : toU64 c1 = Ref.C1 := by decide

theorem toU64_c2 : toU64 c2 = Ref.C2 := by decide

theorem toU64_mixK1 (k : Int) : toU64 (mixK1 k) = Ref.mix1 (toU64 k) := by
  simp only [mixK1, Ref.mix1, toU64_mul64, toU64_rotl64, toU64_c1, toU64_c2]

theorem toU64_mixK2 (k : Int) : toU64 (mixK2 k) = Ref.mix2 (toU64 k) := by
  simp only [mixK2, Ref.mix2, toU64_mul64, toU64_rotl64, toU64_c1, toU64_c2]

theorem lanesU_bodyStep (h : Int × Int) (k1 k2 : Int) :
    lanesU (bodyStep h k1 k2) = Ref.blockStep (lanesU h) (toU64 k1) (toU64 k2) := by
  simp only [lanesU, bodyStep, Ref.blockStep, toU64_add64, toU64_mul64, toU64_xor64,
    toU64_rotl64, toU64_mixK1, toU64_mixK2]
  have e5 : toU64 5 = 5 := by decide
  have ea : toU64 0x52dce729 = 0x52dce729 := by decide
  have eb : toU64 0x38495ab5 = 0x38495ab5 := by decide
  rw [e5, ea, eb]
  simp only [Nat.mod_add_mod]

theorem finalize_eq (h1 h2 : Int) (len : Nat) (hlen : len < 2 ^ 64) :
    finalize h1 h2 len = toI64 (Ref.finalMix (toU64 h1, toU64 h2) len).1 := by
  simp only [finalize, Ref.finalMix]
  rw [add64, toU64_add]
  simp only [toU64_fmix, toU64_add64, toU64_xor64, toU64_ofNat, Nat.mod_eq_of_lt hlen]

theorem le64_lt (bs : List Byte) : le64 bs < 256 ^ bs.length := by
  induction bs with
  | nil => simp [le64]
  | cons b bs ih =>
    have hb := b.isLt
    have e : le64 (b :: bs) = b.val + 256 * le64 bs := rfl
    rw [e, List.length_cons, pow_succ]
    omega

theorem readBytes_eq (p : List Byte) (n off : Nat) (h : off + n ≤ p.length) :
    readBytes p off n = some ((p.drop off).take n) := by
  induction n generalizing off with
  | zero => simp [readBytes]
  | succ n ih =>
    have hlt : off < p.length := by omega
    rw [readBytes, ih (off + 1) (by omega), List.getElem?_eq_getElem hlt]
    simp only
    rw [List.drop_eq_getElem_cons hlt, List.take_succ_cons]

theorem getblock_eq (p : List Byte) (i : Nat) (h : 8 * i + 8 ≤ p.length) :
    getblock p i = some (toI64 (le64 ((p.drop (8 * i)).take 8))) := by
  rw [getblock, readBytes_eq p 8 (8 * i) h]
  rfl

theorem toU64_word (bs : List Byte) (h : bs.length ≤ 8) : toU64 (toI64 (le64 bs)) = le64 bs := by
  rw [toU64_toI64]
  apply Nat.mod_eq_of_lt
  calc le64 bs < 256 ^ bs.length := le64_lt bs
    _ ≤ 256 ^ 8 := Nat.pow_le_pow_right (by norm_num) h
    _ = 2 ^ 64 := by norm_num

theorem getblock_even (p : List Byte) (i : Nat) (h : 16 * i + 16 ≤ p.length) :
    getblock p (i * 2 + 0) = some (toI64 (le64 ((Ref.block p i).take 8))) := by
  rw [getblock_eq p _ (by omega), Ref.block, List.take_take]
  have e : 8 * (i * 2 + 0) = 16 * i := by omega
  rw [e]
  rfl

theorem getblock_odd (p : List Byte) (i : Nat) (h : 16 * i + 16 ≤ p.length) :
    getblock p (i * 2 + 1) = some (toI64 (le64 ((Ref.block p i).drop 8))) := by
  rw [getblock_eq p _ (by omega), Ref.block, List.drop_take, List.drop_drop]
  have e : 8 * (i * 2 + 1) = 16 * i + 8 := by omega
  rw [e]

theorem bodyLoop_sim (data : List Byte) (n i : Nat) (h : Int × Int)
    (hb : 16 * (i + n) ≤ data.length) :
    ∃ h', bodyLoop data n i h = some h' ∧
      lanesU h' = (List.range' i n).foldl
        (fun h i => Ref.blockStep h (le64 ((Ref.block data i).take 8))
          (le64 ((Ref.block data i).drop 8))) (lanesU h) := by
  induction n generalizing i h with
  | zero => exact ⟨h, rfl, rfl⟩
  | succ n ih =>
    obtain ⟨h', e1, e2⟩ := ih (i + 1)
      (bodyStep h (toI64 (le64 ((Ref.block data i).take 8)))
        (toI64 (le64 ((Ref.block data i).drop 8)))) (by omega)
    refine ⟨h', ?_, ?_⟩
    · rw [bodyLoop, getblock_even data i (by omega), getblock_odd data i (by omega)]
      exact e1
    · rw [e2, lanesU_bodyStep, toU64_word, toU64_word, List.range'_succ, List.foldl_cons]
      · rw [List.length_drop, Ref.block, List.length_take]; omega
      · rw [List.length_take]; omega

theorem bodyLoop_blockPhase (data : List Byte) (n : Nat) (h : Int × Int)
    (hb : 16 * n ≤ data.length) :
    ∃ h', bodyLoop data n 0 h = some h' ∧ lanesU h' = Ref.blockPhase data n (lanesU h) := by
  obtain ⟨h', e1, e2⟩ := bodyLoop_sim data n 0 h (by omega)
  exact ⟨h', e1, by rw [e2, Ref.blockPhase, List.range_eq_range']⟩

theorem tailSwitch_spec (tail : List Byte) (ht : tail.length < 16) (h : Int × Int) :
    (tailSwitch (fun j => (tail[j]?).map toI8) tail.length ⟨h.1, h.2, 0, 0⟩).map
      (fun s => (s.h1, s.h2)) = some (tailPhaseSpec 8 tail h) :=
  match tail, ht with
  | [], _ => rfl
  | [_], _ => rfl
  | [_, _], _ => rfl
  | [_, _, _], _ => rfl
  | [_, _, _, _], _ => rfl
  | [_, _, _, _, _], _ => rfl
  | [_, _, _, _, _, _], _ => rfl
  | [_, _, _, _, _, _, _], _ => rfl
  | [_, _, _, _, _, _, _, _], _ => rfl
  | [_, _, _, _, _, _, _, _, _], _ => rfl
  | [_, _, _, _, _, _, _, _, _, _], _ => rfl
  | [_, _, _, _, _, _, _, _, _, _, _], _ => rfl
  | [_, _, _, _, _, _, _, _, _, _, _, _], _ => rfl
  | [_, _, _, _, _, _, _, _, _, _, _, _, _], _ => rfl
  | [_, _, _, _, _, _, _, _, _, _, _, _, _, _], _ => rfl
  | [_, _, _, _, _, _, _, _, _, _, _, _, _, _, _], _ => rfl
  | _ :: _ :: _ :: _ :: _ :: _ :: _ :: _ :: _ :: _ :: _ :: _ :: _ :: _ :: _ :: _ :: _, ht => by
    simp only [List.length_cons] at ht
    omega

theorem toU64_toI8 (b : Byte) : toU64 (toI8 b) = Ref.sext b := by
  have hb := b.isLt
  unfold toU64 toI8 Ref.sext
  split <;> omega

theorem toU64_zero : toU64 0 = 0 := by decide

theorem nat_xor_left_comm (a b c : Nat) : a ^^^ (b ^^^ c) = b ^^^ (a ^^^ c) := by
  rw [← Nat.xor_assoc, Nat.xor_comm a b, Nat.xor_assoc]

theorem tailPhaseSpec_sim (tail : List Byte) (ht : tail.length < 16) (h : Int × Int) :
    lanesU (tailPhaseSpec 8 tail h) = Ref.tailMix Ref.sext tail (lanesU h) := by
  iterate 16
    rcases tail with _ | ⟨b, tail⟩
    · simp [tailPhaseSpec, foldDown, lanesU, Ref.tailMix, Ref.tailWord, toU64_xor64,
        toU64_mixK1, toU64_mixK2, toU64_shl64, toU64_toI8, toU64_zero, Nat.xor_assoc,
        Nat.xor_comm, nat_xor_left_comm]
  simp only [List.length_cons] at ht
  omega

theorem tailLanes_drop (key : List Byte) (n len : Nat) (h : Int × Int)
    (hk : key.length = len) (hn : n = len / 16) :
    tailLanes key n len h = some (tailPhaseSpec 8 (key.drop (16 * n)) h) := by
  have hl : (key.drop (16 * n)).length = len &&& 15 := by
    have e := Nat.and_pow_two_sub_one_eq_mod len 4
    norm_num at e
    rw [List.length_drop, e]
    omega
  have hlt : (key.drop (16 * n)).length < 16 := by
    rw [List.length_drop]; omega
  rw [← tailSwitch_spec _ hlt h, tailLanes, hl]
  have hr : (fun j => (key[n * 16 + j]?).map toI8) =
      (fun j => ((key.drop (16 * n))[j]?).map toI8) := by
    funext j
    rw [List.getElem?_drop, Nat.mul_comm]
  rw [hr]

theorem x64_128_unfold (key : List Byte) (len : Nat) (seed : Word32) :
    x64_128 key len seed =
      ((bodyLoop key (len / 16) 0 ((seed.val : Int), (seed.val : Int))).bind
        fun h => tailLanes key (len / 16) len h).map fun h => finalize h.1 h.2 len := by
  unfold x64_128 tailLanes
  dsimp only
  generalize bodyLoop key (len / 16) 0 ((seed.val : Int), (seed.val : Int)) = o
  cases o with
  | none => rfl
  | some h =>
    simp only [Option.some_bind]
    generalize tailSwitch (fun j => (key[len / 16 * 16 + j]?).map toI8) (len &&& 15)
      ⟨h.1, h.2, 0, 0⟩ = t
    cases t <;> rfl

theorem lanesU_seed (seed : Word32) :
    lanesU ((seed.val : Int), (seed.val : Int)) = (seed.val, seed.val) := by
  have hs := seed.isLt
  simp only [lanesU, toU64_ofNat]
  rw [Nat.mod_eq_of_lt (by omega)]

theorem x64_128_sext (data : List Byte) (seed : Word32) (hlen : data.length < 2 ^ 31) :
    x64_128 data data.length seed =
      some (toI64 (Ref.murmur3_x64_128 Ref.sext data seed.val).1) := by
  obtain ⟨hb, e1, e2⟩ := bodyLoop_blockPhase data (data.length / 16)
    ((seed.val : Int), (seed.val : Int)) (by omega)
  rw [x64_128_unfold, e1, Option.some_bind, tailLanes_drop data _ _ hb rfl rfl, Option.map_some',
    finalize_eq _ _ _ (by omega)]
  have e3 := tailPhaseSpec_sim (data.drop (16 * (data.length / 16)))
    (by rw [List.length_drop]; omega) hb
  rw [lanesU] at e3
  rw [e3, e2, lanesU_seed]
  rfl

theorem and15_eq_mod (len : Nat) : len &&& 15 = len % 16 := by
  have e := Nat.and_pow_two_sub_one_eq_mod len 4
  norm_num at e
  exact e

set_option maxRecDepth 100000

/-- C1, as stated, fails: for the one-byte key `[0xFF]` and seed `0`, `x64_128` is not
the low 64 bits of the public-domain MurmurHash3 x64-128 digest, whose tail bytes are
read as unsigned octets. -/
theorem c1_unsigned_digest_refuted :
    x64_128 [0xFF] 1 0 ≠ some (toI64 (Ref.murmur3_x64_128 Ref.zext [0xFF] 0).1) := by
  decide

/-- C1, amended: for every byte sequence of length below `2^31` and every 32-bit seed,
`x64_128` returns the low 64 bits of the MurmurHash3 x64-128 digest computed with block
words read little-endian and every tail byte read as a signed octet, sign-extended to
64 bits. -/
theorem c1_signed_tail_digest (data : List Byte) (seed : Word32)
    (hlen : data.length < 2 ^ 31) :
    x64_128 data data.length seed =
      some (toI64 (Ref.murmur3_x64_128 Ref.sext data seed.val).1) :=
  x64_128_sext data seed hlen

/-- C1, amended, at the key `[0xFF]` with seed `0`. -/
theorem c1_signed_tail_digest_witness :
    ([0xFF] : List Byte).length < 2 ^ 31 ∧
    x64_128 [0xFF] ([0xFF] : List Byte).length 0 =
      some (toI64 (Ref.murmur3_x64_128 Ref.sext [0xFF] (0 : Word32).val).1) :=
  ⟨by decide, c1_signed_tail_digest [0xFF] 0 (by decide)⟩

/-- C2: for a key of `16 * n` bytes, `x64_128` returns the finalization of the lanes
obtained from `h1 = h2 = seed` by folding the block step over the `n` blocks in order
(little-endian words, arithmetic modulo `2^64`), and the tail switch leaves any lanes
unchanged. -/
theorem c2_aligned_blocks (data : List Byte) (n : Nat) (seed : Word32)
    (hn : data.length = 16 * n) (hlen : data.length < 2 ^ 31) :
    x64_128 data data.length seed =
      some (toI64 (Ref.finalMix (Ref.blockPhase data n (seed.val, seed.val)) data.length).1) ∧
    ∀ h : Int × Int, tailLanes data n data.length h = some h := by
  have hd : data.length / 16 = n := by omega
  have ha : data.length &&& 15 = 0 := by rw [and15_eq_mod]; omega
  constructor
  · obtain ⟨hb, e1, e2⟩ := bodyLoop_blockPhase data n
      ((seed.val : Int), (seed.val : Int)) (by omega)
    rw [x64_128_unfold, hd, e1, Option.some_bind, tailLanes, ha]
    simp only [tailSwitch, Option.map_some']
    rw [finalize_eq _ _ _ (by omega)]
    rw [lanesU] at e2
    rw [e2, lanesU_seed]
  · intro h
    rw [tailLanes, ha]
    rfl

/-- C2 at a key of sixteen bytes (one block), seed `1`. -/
theorem c2_aligned_blocks_witness :
    x64_128 [0, 1, 2, 3, 4, 5, 6, 7, 8, 9, 10, 11, 12, 13, 14, 255]
        ([0, 1, 2, 3, 4, 5, 6, 7, 8, 9, 10, 11, 12, 13, 14, 255] : List Byte).length 1 =
      some (toI64 (Ref.finalMix
        (Ref.blockPhase [0, 1, 2, 3, 4, 5, 6, 7, 8, 9, 10, 11, 12, 13, 14, 255] 1
          ((1 : Word32).val, (1 : Word32).val))
        ([0, 1, 2, 3, 4, 5, 6, 7, 8, 9, 10, 11, 12, 13, 14, 255] : List Byte).length).1) ∧
    ∀ h : Int × Int,
      tailLanes [0, 1, 2, 3, 4, 5, 6, 7, 8, 9, 10, 11, 12, 13, 14, 255] 1
        ([0, 1, 2, 3, 4, 5, 6, 7, 8, 9, 10, 11, 12, 13, 14, 255] : List Byte).length h = some h :=
  c2_aligned_blocks [0, 1, 2, 3, 4, 5, 6, 7, 8, 9, 10, 11, 12, 13, 14, 255] 1 1
    (by decide) (by decide)

/-- C3, as stated, fails: for the nine-byte key `[0,0,0,0,0,0,0,0,1]` the tail switch
folds the byte at tail index 8 into `k2` and mixes `k2` into `h2`, whereas the claim
stops at index 9 and mixes `k2` only when a byte of index 9..15 is present. -/
theorem c3_tail_from_index9_refuted :
    tailLanes [0, 0, 0, 0, 0, 0, 0, 0, 1] 0 9 (0, 0) ≠
      some (tailPhaseSpec 9 [0, 0, 0, 0, 0, 0, 0, 0, 1] (0, 0)) := by
  decide

/-- C3, amended: `x64_128` is the block loop, then the tail switch, then the
finalization, and the tail switch builds `k2` by folding the tail bytes at
indices `tailLen - 1` down to `8`, each at shift `8 * (index - 8)`, and mixes `k2` into
`h2` exactly when a byte of index 8..14 is present; it then builds `k1` from the tail
bytes at indices `min tailLen 8 - 1` down to `0`, each at shift `8 * index`, and mixes
`k1` into `h1` exactly when a byte of index 0..7 is present. -/
theorem c3_tail_from_index8 (key : List Byte) (seed : Word32) :
    x64_128 key key.length seed =
      ((bodyLoop key (key.length / 16) 0 ((seed.val : Int), (seed.val : Int))).bind
        fun h => tailLanes key (key.length / 16) key.length h).map
        (fun h => finalize h.1 h.2 key.length) ∧
    ∀ h : Int × Int, tailLanes key (key.length / 16) key.length h =
      some (tailPhaseSpec 8 (key.drop (16 * (key.length / 16))) h) :=
  ⟨x64_128_unfold key key.length seed,
    fun h => tailLanes_drop key (key.length / 16) key.length h rfl rfl⟩

/-- C4: on the empty key `x64_128` returns the finalization of the lanes
`h1 = h2 = seed` with length `0`, that is `fmix64 (2 * seed) + fmix64 (3 * seed)` modulo
`2^64` with the seed zero-extended; for seed `0` the value is `0`. -/
theorem c4_empty_key (seed : Word32) :
    x64_128 [] 0 seed = some (finalize (seed.val : Int) (seed.val : Int) 0) ∧
    x64_128 [] 0 seed =
      some (toI64 ((Ref.fmix64 (2 * seed.val) + Ref.fmix64 (3 * seed.val)) % 2 ^ 64)) ∧
    x64_128 [] 0 0 = some 0 := by
  have hs := seed.isLt
  have e0 : x64_128 [] 0 seed = some (finalize (seed.val : Int) (seed.val : Int) 0) := rfl
  refine ⟨e0, ?_, by decide⟩
  rw [e0, finalize_eq _ _ _ (by norm_num)]
  simp only [Ref.finalMix, toU64_ofNat, Nat.xor_zero]
  have e1 : seed.val % 2 ^ 64 = seed.val := Nat.mod_eq_of_lt (by omega)
  have e2 : (seed.val + seed.val) % 2 ^ 64 = 2 * seed.val := by omega
  have e3 : (seed.val + 2 * seed.val) % 2 ^ 64 = 3 * seed.val := by omega
  rw [e1, e2, e3]

/-- C5: for a buffer of exactly `len` bytes, every block word and every tail byte that
`x64_128` reads lies inside the buffer, and `x64_128` returns a value, which is a
64-bit signed integer. -/
theorem c5_total (key : List Byte) (len : Nat) (seed : Word32)
    (hk : key.length = len) (hlen : len < 2 ^ 31) :
    (∀ i, i < 2 * (len / 16) → ∃ w, getblock key i = some w) ∧
    (∀ j, j < len &&& 15 → ∃ b, key[len / 16 * 16 + j]? = some b) ∧
    ∃ v, x64_128 key len seed = some v ∧ -(2 ^ 63 : Int) ≤ v ∧ v < 2 ^ 63 := by
  subst hk
  refine ⟨fun i hi => ⟨_, getblock_eq key i (by omega)⟩, fun j hj => ?_, ?_⟩
  · rw [and15_eq_mod] at hj
    exact ⟨_, List.getElem?_eq_getElem (by omega)⟩
  · exact ⟨_, x64_128_sext key seed hlen, toI64_range _⟩

/-- C5 at the five-byte key "hello" with seed `0`. -/
theorem c5_total_witness :
    (∀ i, i < 2 * (5 / 16) → ∃ w, getblock [0x68, 0x65, 0x6c, 0x6c, 0x6f] i = some w) ∧
    (∀ j, j < 5 &&& 15 →
      ∃ b, ([0x68, 0x65, 0x6c, 0x6c, 0x6f] : List Byte)[5 / 16 * 16 + j]? = some b) ∧
    ∃ v, x64_128 [0x68, 0x65, 0x6c, 0x6c, 0x6f] 5 0 = some v ∧
      -(2 ^ 63 : Int) ≤ v ∧ v < 2 ^ 63 :=
  c5_total [0x68, 0x65, 0x6c, 0x6c, 0x6f] 5 0 (by decide) (by decide)

/-- C6: with seed `0`, the empty key and the one-byte key `[0x00]` hash to different
values. -/
theorem c6_length_sensitivity : x64_128 [] 0 0 ≠ x64_128 [0x00] 1 0 := by
  decide

/-- C7: the hash depends on the seed: the key "hello" hashes to two distinct values
under the seeds `0` and `1`. -/
theorem c7_seed_sensitivity :
    (∃ (b : List Byte) (s1 s2 : Word32),
      s1 ≠ s2 ∧ x64_128 b b.length s1 ≠ x64_128 b b.length s2) ∧
    x64_128 [0x68, 0x65, 0x6c, 0x6c, 0x6f] 5 0 = some (-3758069500696749310) ∧
    x64_128 [0x68, 0x65, 0x6c, 0x6c, 0x6f] 5 1 = some (-6373191651385504496) ∧
    x64_128 [0x68, 0x65, 0x6c, 0x6c, 0x6f] 5 0 ≠ x64_128 [0x68, 0x65, 0x6c, 0x6c, 0x6f] 5 1 :=
  ⟨⟨[0x68, 0x65, 0x6c, 0x6c, 0x6f], 0, 1, by decide, by decide⟩, by decide, by decide,
    by decide⟩

/-- C8: with seed `0`, the one-byte keys `[0xFF]` and `[0x7F]` hash to different
values. -/
theorem c8_high_bit_byte : x64_128 [0xFF] 1 0 ≠ x64_128 [0x7F] 1 0 := by
  decide

/-- C9: with seed `0`, the sixteen keys made of `n` zero bytes, `n = 0, ..., 15`, hash
to sixteen pairwise distinct values. -/
theorem c9_zero_tails_distinct :
    ((List.range 16).map fun n => x64_128 (List.replicate n 0) n 0).Nodup := by
  decide

theorem rotl_lt (u r : Nat) (hu : u < 2 ^ 64) : Ref.rotl u r < 2 ^ 64 := by
  unfold Ref.rotl
  apply Nat.or_lt_two_pow (Nat.mod_lt _ (by norm_num))
  rw [Nat.shiftRight_eq_div_pow]
  exact lt_of_le_of_lt (Nat.div_le_self _ _) hu

theorem rotl_testBit (u r i : Nat) (hu : u < 2 ^ 64) (h1 : 1 ≤ r) (h2 : r ≤ 63) (hi : i < 64) :
    (Ref.rotl u r).testBit i = u.testBit ((i + (64 - r)) % 64) := by
  unfold Ref.rotl
  rw [Nat.testBit_or, Nat.testBit_mod_two_pow, Nat.testBit_shiftLeft, Nat.testBit_shiftRight]
  by_cases hr : r ≤ i
  · have e : (i + (64 - r)) % 64 = i - r := by omega
    have hb : u.testBit (64 - r + i) = false := by
      apply Nat.testBit_lt_two_pow
      exact lt_of_lt_of_le hu (Nat.pow_le_pow_right (by norm_num) (by omega))
    rw [e, hb]
    simp [hi, hr]
  · have e : (i + (64 - r)) % 64 = 64 - r + i := by omega
    rw [e]
    simp [hr]

theorem xorShift33_lt (u : Nat) (hu : u < 2 ^ 64) : Ref.xorShift33 u < 2 ^ 64 := by
  unfold Ref.xorShift33
  apply Nat.xor_lt_two_pow hu
  rw [Nat.shiftRight_eq_div_pow]
  exact lt_of_le_of_lt (Nat.div_le_self _ _) hu

theorem xorShift33_invol (u : Nat) (hu : u < 2 ^ 64) :
    Ref.xorShift33 (Ref.xorShift33 u) = u := by
  unfold Ref.xorShift33
  apply Nat.eq_of_testBit_eq
  intro i
  have hb : u.testBit (33 + (33 + i)) = false := by
    apply Nat.testBit_lt_two_pow
    exact lt_of_lt_of_le hu (Nat.pow_le_pow_right (by norm_num) (by omega))
  simp only [Nat.testBit_xor, Nat.testBit_shiftRight, hb]
  cases u.testBit i <;> cases u.testBit (33 + i) <;> rfl

theorem mul_mul_inv_mod (x c ci : Nat) (hc : (c * ci) % 2 ^ 64 = 1) :
    ((x * c) % 2 ^ 64 * ci) % 2 ^ 64 = x % 2 ^ 64 := by
  rw [Nat.mod_mul_mod, Nat.mul_assoc, Nat.mul_mod, hc, Nat.mul_one, Nat.mod_mod]

theorem mul_cancel_mod (a b c ci : Nat) (hc : (c * ci) % 2 ^ 64 = 1) (ha : a < 2 ^ 64)
    (hb : b < 2 ^ 64) (h : (a * c) % 2 ^ 64 = (b * c) % 2 ^ 64) : a = b := by
  have e1 := mul_mul_inv_mod a c ci hc
  have e2 := mul_mul_inv_mod b c ci hc
  rw [h, e2, Nat.mod_eq_of_lt ha, Nat.mod_eq_of_lt hb] at e1
  exact e1.symm

theorem fmix64_eq (u : Nat) :
    Ref.fmix64 u = Ref.xorShift33 ((Ref.xorShift33 ((Ref.xorShift33 u * 0xff51afd7ed558ccd) % 2 ^ 64)
      * 0xc4ceb9fe1a85ec53) % 2 ^ 64) := rfl

theorem fmix64_lt (u : Nat) : Ref.fmix64 u < 2 ^ 64 := by
  rw [fmix64_eq]
  exact xorShift33_lt _ (Nat.mod_lt _ (by norm_num))

theorem unfmix64_lt (u : Nat) : Ref.unfmix64 u < 2 ^ 64 := by
  unfold Ref.unfmix64
  exact xorShift33_lt _ (Nat.mod_lt _ (by norm_num))

theorem unfmix64_fmix64 (u : Nat) (hu : u < 2 ^ 64) : Ref.unfmix64 (Ref.fmix64 u) = u := by
  have hm : ∀ x : Nat, x % 2 ^ 64 < 2 ^ 64 := fun x => Nat.mod_lt _ (by norm_num)
  rw [fmix64_eq]
  unfold Ref.unfmix64
  simp only
  rw [xorShift33_invol _ (hm _), mul_mul_inv_mod _ _ _ (by decide),
    Nat.mod_eq_of_lt (xorShift33_lt _ (hm _)), xorShift33_invol _ (hm _),
    mul_mul_inv_mod _ _ _ (by decide), Nat.mod_eq_of_lt (xorShift33_lt _ hu),
    xorShift33_invol _ hu]

theorem fmix64_unfmix64 (u : Nat) (hu : u < 2 ^ 64) : Ref.fmix64 (Ref.unfmix64 u) = u := by
  have hm : ∀ x : Nat, x % 2 ^ 64 < 2 ^ 64 := fun x => Nat.mod_lt _ (by norm_num)
  rw [fmix64_eq]
  unfold Ref.unfmix64
  simp only
  rw [xorShift33_invol _ (hm _), mul_mul_inv_mod _ _ _ (by decide),
    Nat.mod_eq_of_lt (xorShift33_lt _ (hm _)), xorShift33_invol _ (hm _),
    mul_mul_inv_mod _ _ _ (by decide), Nat.mod_eq_of_lt (xorShift33_lt _ hu),
    xorShift33_invol _ hu]

theorem rotl_inj (u v r : Nat) (hu : u < 2 ^ 64) (hv : v < 2 ^ 64) (h1 : 1 ≤ r) (h2 : r ≤ 63)
    (h : Ref.rotl u r = Ref.rotl v r) : u = v := by
  apply Nat.eq_of_testBit_eq
  intro j
  by_cases hj : j < 64
  · have eu := rotl_testBit u r ((j + r) % 64) hu h1 h2 (Nat.mod_lt _ (by norm_num))
    have ev := rotl_testBit v r ((j + r) % 64) hv h1 h2 (Nat.mod_lt _ (by norm_num))
    have e : ((j + r) % 64 + (64 - r)) % 64 = j := by omega
    rw [e] at eu ev
    rw [← eu, ← ev, h]
  · have hp : (2 : Nat) ^ 64 ≤ 2 ^ j := Nat.pow_le_pow_right (by norm_num) (by omega)
    rw [Nat.testBit_lt_two_pow (lt_of_lt_of_le hu hp),
      Nat.testBit_lt_two_pow (lt_of_lt_of_le hv hp)]

theorem mix1_inj (a b : Nat) (ha : a < 2 ^ 64) (hb : b < 2 ^ 64)
    (h : Ref.mix1 a = Ref.mix1 b) : a = b := by
  have hm : ∀ x : Nat, x % 2 ^ 64 < 2 ^ 64 := fun x => Nat.mod_lt _ (by norm_num)
  unfold Ref.mix1 at h
  have h1 := mul_cancel_mod _ _ Ref.C2 0xa81e14edd9de2c7f (by decide)
    (rotl_lt _ _ (hm _)) (rotl_lt _ _ (hm _)) h
  have h2 := rotl_inj _ _ 31 (hm _) (hm _) (by norm_num) (by norm_num) h1
  exact mul_cancel_mod a b Ref.C1 0xa98409e882ce4d7d (by decide) ha hb h2

theorem mix2_inj (a b : Nat) (ha : a < 2 ^ 64) (hb : b < 2 ^ 64)
    (h : Ref.mix2 a = Ref.mix2 b) : a = b := by
  have hm : ∀ x : Nat, x % 2 ^ 64 < 2 ^ 64 := fun x => Nat.mod_lt _ (by norm_num)
  unfold Ref.mix2 at h
  have h1 := mul_cancel_mod _ _ Ref.C1 0xa98409e882ce4d7d (by decide)
    (rotl_lt _ _ (hm _)) (rotl_lt _ _ (hm _)) h
  have h2 := rotl_inj _ _ 33 (hm _) (hm _) (by norm_num) (by norm_num) h1
  exact mul_cancel_mod a b Ref.C2 0xa81e14edd9de2c7f (by decide) ha hb h2

theorem mix1_lt (a : Nat) : Ref.mix1 a < 2 ^ 64 := Nat.mod_lt _ (by norm_num)

theorem mix2_lt (a : Nat) : Ref.mix2 a < 2 ^ 64 := Nat.mod_lt _ (by norm_num)

theorem add_cancel_mod (a b c : Nat) (h : (a + c) % 2 ^ 64 = (b + c) % 2 ^ 64) :
    a % 2 ^ 64 = b % 2 ^ 64 :=
  Nat.ModEq.add_right_cancel' c h

theorem lane_update_inj (x y c r d : Nat) (hx : x < 2 ^ 64) (hy : y < 2 ^ 64)
    (h1 : 1 ≤ r) (h2 : r ≤ 63)
    (h : ((Ref.rotl x r + c) % 2 ^ 64 * 5 + d) % 2 ^ 64 =
      ((Ref.rotl y r + c) % 2 ^ 64 * 5 + d) % 2 ^ 64) : x = y := by
  have hm : ∀ z : Nat, z % 2 ^ 64 < 2 ^ 64 := fun z => Nat.mod_lt _ (by norm_num)
  have e1 := add_cancel_mod _ _ _ h
  have e2 := mul_cancel_mod _ _ 5 0xcccccccccccccccd (by decide) (hm _) (hm _) e1
  have e3 := add_cancel_mod _ _ _ e2
  rw [Nat.mod_eq_of_lt (rotl_lt x r hx), Nat.mod_eq_of_lt (rotl_lt y r hy)] at e3
  exact rotl_inj x y r hx hy h1 h2 e3

theorem blockStep_inj (h : Nat × Nat) (k1 k2 k1' k2' : Nat) (hh1 : h.1 < 2 ^ 64)
    (hh2 : h.2 < 2 ^ 64) (hk1 : k1 < 2 ^ 64) (hk2 : k2 < 2 ^ 64) (hk1' : k1' < 2 ^ 64)
    (hk2' : k2' < 2 ^ 64) (he : Ref.blockStep h k1 k2 = Ref.blockStep h k1' k2') :
    k1 = k1' ∧ k2 = k2' := by
  unfold Ref.blockStep at he
  simp only [Prod.mk.injEq] at he
  obtain ⟨e1, e2⟩ := he
  have x1 := lane_update_inj _ _ _ 27 _ (Nat.xor_lt_two_pow hh1 (mix1_lt k1))
    (Nat.xor_lt_two_pow hh1 (mix1_lt k1')) (by norm_num) (by norm_num) e1
  have a1 : k1 = k1' := mix1_inj k1 k1' hk1 hk1' (Nat.xor_right_injective x1)
  subst a1
  have x2 := lane_update_inj _ _ _ 31 _ (Nat.xor_lt_two_pow hh2 (mix2_lt k2))
    (Nat.xor_lt_two_pow hh2 (mix2_lt k2')) (by norm_num) (by norm_num) e2
  exact ⟨rfl, mix2_inj k2 k2' hk2 hk2' (Nat.xor_right_injective x2)⟩

theorem le64_inj (a b : List Byte) (hl : a.length = b.length) (h : le64 a = le64 b) : a = b := by
  induction a generalizing b with
  | nil =>
    cases b with
    | nil => rfl
    | cons y b => simp at hl
  | cons x a ih =>
    cases b with
    | nil => simp at hl
    | cons y b =>
      have ex : le64 (x :: a) = x.val + 256 * le64 a := rfl
      have ey : le64 (y :: b) = y.val + 256 * le64 b := rfl
      rw [ex, ey] at h
      have hx := x.isLt
      have hy := y.isLt
      have e1 : x.val = y.val := by omega
      have e2 : le64 a = le64 b := by omega
      rw [Fin.ext e1, ih b (by simpa using hl) e2]

/-! ## The claims on the helpers and on the tail -/

theorem toI64_toU64_inj (a b : Int) (ha : -(2 ^ 63 : Int) ≤ a ∧ a < 2 ^ 63)
    (hb : -(2 ^ 63 : Int) ≤ b ∧ b < 2 ^ 63) (h : toU64 a = toU64 b) : a = b := by
  rw [← toI64_toU64 a ha.1 ha.2, ← toI64_toU64 b hb.1 hb.2, h]

theorem bodyStep_inj (h : Int × Int) (k1 k2 k1' k2' : Int)
    (hk1 : -(2 ^ 63 : Int) ≤ k1 ∧ k1 < 2 ^ 63) (hk2 : -(2 ^ 63 : Int) ≤ k2 ∧ k2 < 2 ^ 63)
    (hk1' : -(2 ^ 63 : Int) ≤ k1' ∧ k1' < 2 ^ 63) (hk2' : -(2 ^ 63 : Int) ≤ k2' ∧ k2' < 2 ^ 63)
    (he : bodyStep h k1 k2 = bodyStep h k1' k2') : k1 = k1' ∧ k2 = k2' := by
  have e := congrArg lanesU he
  rw [lanesU_bodyStep, lanesU_bodyStep] at e
  obtain ⟨e1, e2⟩ := blockStep_inj (lanesU h) _ _ _ _ (toU64_lt _) (toU64_lt _) (toU64_lt _)
    (toU64_lt _) (toU64_lt _) (toU64_lt _) e
  exact ⟨toI64_toU64_inj _ _ hk1 hk1' e1, toI64_toU64_inj _ _ hk2 hk2' e2⟩

theorem bodyLoop_one (data : List Byte) (h : Int × Int) (hl : data.length = 16) :
    bodyLoop data 1 0 h =
      some (bodyStep h (toI64 (le64 (data.take 8))) (toI64 (le64 (data.drop 8)))) := by
  have eb : Ref.block data 0 = data := by
    rw [Ref.block, Nat.mul_zero, List.drop_zero, ← hl, List.take_length]
  rw [bodyLoop, getblock_even data 0 (by omega), getblock_odd data 0 (by omega), eb]
  rfl

theorem word_inj (a b : List Byte) (ha : a.length ≤ 8) (hl : a.length = b.length)
    (h : toI64 (le64 a) = toI64 (le64 b)) : a = b := by
  have e := congrArg toU64 h
  rw [toU64_word a ha, toU64_word b (by omega)] at e
  exact le64_inj a b hl e

theorem bodyLoop_one_inj (data data' : List Byte) (h : Int × Int) (hl : data.length = 16)
    (hl' : data'.length = 16) (he : bodyLoop data 1 0 h = bodyLoop data' 1 0 h) :
    data = data' := by
  rw [bodyLoop_one data h hl, bodyLoop_one data' h hl'] at he
  obtain ⟨e1, e2⟩ := bodyStep_inj h _ _ _ _ (toI64_range _) (toI64_range _) (toI64_range _)
    (toI64_range _) (Option.some.inj he)
  have t := word_inj _ _ (by rw [List.length_take]; omega)
    (by rw [List.length_take, List.length_take]; omega) e1
  have d := word_inj _ _ (by rw [List.length_drop]; omega)
    (by rw [List.length_drop, List.length_drop]; omega) e2
  rw [← List.take_append_drop 8 data, ← List.take_append_drop 8 data', t, d]

/-- C12: for `1 ≤ r ≤ 63`, `rotl64 x r` is the 64-bit left rotation of the bit pattern
of `x` by `r` bits: the result is in the `int64_t` range and bit `i` of its pattern is
bit `(i - r) mod 64` of the pattern of `x`, for every `i < 64`. -/
theorem c12_rotl64_rotates (x : Int) (r : Nat) (h1 : 1 ≤ r) (h2 : r ≤ 63) :
    (-(2 ^ 63 : Int) ≤ rotl64 x r ∧ rotl64 x r < 2 ^ 63) ∧
    ∀ i, i < 64 → (toU64 (rotl64 x r)).testBit i = (toU64 x).testBit ((i + (64 - r)) % 64) :=
  ⟨toI64_range _, fun i hi => by
    rw [toU64_rotl64]
    exact rotl_testBit (toU64 x) r i (toU64_lt x) h1 h2 hi⟩

/-- C12 at `x = -2` and `r = 31`. -/
theorem c12_rotl64_rotates_witness :
    (-(2 ^ 63 : Int) ≤ rotl64 (-2) 31 ∧ rotl64 (-2) 31 < 2 ^ 63) ∧
    ∀ i, i < 64 →
      (toU64 (rotl64 (-2) 31)).testBit i = (toU64 (-2)).testBit ((i + (64 - 31)) % 64) :=
  c12_rotl64_rotates (-2) 31 (by decide) (by decide)

/-- C13: for every `k`, negative or not, the bit pattern of `fmix k` is given by the
unsigned formula `k ^= k >>> 33; k *= 0xff51afd7ed558ccd; k ^= k >>> 33;
k *= 0xc4ceb9fe1a85ec53; k ^= k >>> 33` with logical shifts and multiplication modulo
`2^64`, applied to the bit pattern of `k`. -/
theorem c13_fmix_unsigned (k : Int) :
    toU64 (fmix k) = Ref.fmix64 (toU64 k) ∧ fmix k = toI64 (Ref.fmix64 (toU64 k)) := by
  refine ⟨toU64_fmix k, ?_⟩
  rw [← toU64_fmix]
  exact (toI64_toU64_toI64 _).symm

/-- C16: `fmix` is a bijection of the 64-bit values: it is injective, every 64-bit
value is reached, and `fmix 0 = 0`. -/
theorem c16_fmix_bijective (k k' : Int) (hk : -(2 ^ 63 : Int) ≤ k ∧ k < 2 ^ 63)
    (hk' : -(2 ^ 63 : Int) ≤ k' ∧ k' < 2 ^ 63) (h : fmix k = fmix k') :
    k = k' ∧ (∃ j : Int, (-(2 ^ 63 : Int) ≤ j ∧ j < 2 ^ 63) ∧ fmix j = k) ∧ fmix 0 = 0 := by
  refine ⟨?_, ⟨toI64 (Ref.unfmix64 (toU64 k)), toI64_range _, ?_⟩, by decide⟩
  · have e := congrArg toU64 h
    rw [toU64_fmix, toU64_fmix] at e
    have e' := congrArg Ref.unfmix64 e
    rw [unfmix64_fmix64 _ (toU64_lt k), unfmix64_fmix64 _ (toU64_lt k')] at e'
    exact toI64_toU64_inj k k' hk hk' e'
  · apply toI64_toU64_inj _ _ (by unfold fmix; exact toI64_range _) hk
    rw [toU64_fmix, toU64_toI64, Nat.mod_eq_of_lt (unfmix64_lt _),
      fmix64_unfmix64 _ (toU64_lt k)]

/-- C16 at `k = k' = -1`. -/
theorem c16_fmix_bijective_witness :
    (-1 : Int) = -1 ∧
    (∃ j : Int, (-(2 ^ 63 : Int) ≤ j ∧ j < 2 ^ 63) ∧ fmix j = -1) ∧ fmix 0 = 0 :=
  c16_fmix_bijective (-1) (-1) (by decide) (by decide) rfl

/-- C17: one iteration of the block loop loses no information: for given lanes, two
pairs of block words with the same updated lanes are equal; hence two distinct
16-byte keys give different lanes at the end of the block phase, whatever the seed. -/
theorem c17_block_step_injective (h : Int × Int) (k1 k2 k1' k2' : Int)
    (hk1 : -(2 ^ 63 : Int) ≤ k1 ∧ k1 < 2 ^ 63) (hk2 : -(2 ^ 63 : Int) ≤ k2 ∧ k2 < 2 ^ 63)
    (hk1' : -(2 ^ 63 : Int) ≤ k1' ∧ k1' < 2 ^ 63) (hk2' : -(2 ^ 63 : Int) ≤ k2' ∧ k2' < 2 ^ 63)
    (he : bodyStep h k1 k2 = bodyStep h k1' k2') :
    (k1 = k1' ∧ k2 = k2') ∧
    ∀ (seed : Word32) (data data' : List Byte), data.length = 16 → data'.length = 16 →
      data ≠ data' →
      ∃ hb hb', bodyLoop data 1 0 ((seed.val : Int), (seed.val : Int)) = some hb ∧
        bodyLoop data' 1 0 ((seed.val : Int), (seed.val : Int)) = some hb' ∧ hb ≠ hb' := by
  refine ⟨bodyStep_inj h k1 k2 k1' k2' hk1 hk2 hk1' hk2' he, ?_⟩
  intro seed data data' hl hl' hne
  refine ⟨_, _, bodyLoop_one data _ hl, bodyLoop_one data' _ hl', fun hc => hne ?_⟩
  apply bodyLoop_one_inj data data' ((seed.val : Int), (seed.val : Int)) hl hl'
  rw [bodyLoop_one data _ hl, bodyLoop_one data' _ hl', hc]

/-- C17 at the lanes `(0, 0)` and the block words `(1, -2)`. -/
theorem c17_block_step_injective_witness :
    ((1 : Int) = 1 ∧ (-2 : Int) = -2) ∧
    ∀ (seed : Word32) (data data' : List Byte), data.length = 16 → data'.length = 16 →
      data ≠ data' →
      ∃ hb hb', bodyLoop data 1 0 ((seed.val : Int), (seed.val : Int)) = some hb ∧
        bodyLoop data' 1 0 ((seed.val : Int), (seed.val : Int)) = some hb' ∧ hb ≠ hb' :=
  c17_block_step_injective (0, 0) 1 (-2) 1 (-2) (by decide) (by decide) (by decide)
    (by decide) rfl

theorem tailMix_masks (tail : List Byte) (ht : tail.length < 16) (h : Nat × Nat) :
    Ref.tailMix Ref.sext tail h =
      (h.1 ^^^ Ref.tailMask1 tail, h.2 ^^^ Ref.tailMask2 tail) := by
  iterate 16
    rcases tail with _ | ⟨b, tail⟩
    · simp [Ref.tailMix, Ref.tailMask1, Ref.tailMask2, Ref.tailXor, Ref.tailWord,
        List.range', Nat.xor_assoc, Nat.xor_comm, nat_xor_left_comm]
  simp only [List.length_cons] at ht
  omega

theorem x64_128_lanes (data : List Byte) (seed : Word32) (n : Nat)
    (hn : n = data.length / 16) (hlen : data.length < 2 ^ 31) :
    ∃ hb : Int × Int,
      bodyLoop data n 0 ((seed.val : Int), (seed.val : Int)) = some hb ∧
      lanesU hb = Ref.blockPhase data n (seed.val, seed.val) ∧
      x64_128 data data.length seed =
        some (toI64 (Ref.finalMix (Ref.tailMix Ref.sext (data.drop (16 * n)) (lanesU hb))
          data.length).1) := by
  subst hn
  obtain ⟨hb, e1, e2⟩ := bodyLoop_blockPhase data (data.length / 16)
    ((seed.val : Int), (seed.val : Int)) (by omega)
  refine ⟨hb, e1, by rw [e2, lanesU_seed], ?_⟩
  rw [x64_128_unfold, e1, Option.some_bind, tailLanes_drop data _ _ hb rfl rfl, Option.map_some',
    finalize_eq _ _ _ (by omega)]
  have e3 := tailPhaseSpec_sim (data.drop (16 * (data.length / 16)))
    (by rw [List.length_drop]; omega) hb
  rw [lanesU] at e3
  rw [e3]

/-- C11: for a key of `16 * n + t` bytes, `t ≤ 15`, with `hb` the lanes after the
block loop, `x64_128` returns the finalization of the lanes `(hb1 ^ m1, hb2 ^ m2)`,
where `m1` and `m2` are built from accumulators starting at zero and from the tail
bytes taken as signed octets: `K2` is the XOR over `i` in `8..t-1` of
`sext(tail[i]) << 8*(i-8)`, `K1` the XOR over `i` in `0..min(t,8)-1` of
`sext(tail[i]) << 8*i`, `m2 = rotl64(K2*c2,33)*c1` if `t ≥ 9` and `0` otherwise,
`m1 = rotl64(K1*c1,31)*c2` if `t ≥ 1` and `0` otherwise. -/
theorem c11_tail_masks (data : List Byte) (seed : Word32) (n t : Nat)
    (hd : data.length = 16 * n + t) (ht : t ≤ 15) (hlen : data.length < 2 ^ 31) :
    ∃ hb : Int × Int,
      bodyLoop data n 0 ((seed.val : Int), (seed.val : Int)) = some hb ∧
      lanesU hb = Ref.blockPhase data n (seed.val, seed.val) ∧
      x64_128 data data.length seed =
        some (toI64 (Ref.finalMix
          (toU64 hb.1 ^^^ Ref.tailMask1 (data.drop (16 * n)),
            toU64 hb.2 ^^^ Ref.tailMask2 (data.drop (16 * n))) data.length).1) := by
  obtain ⟨hb, e1, e2, e3⟩ := x64_128_lanes data seed n (by omega) hlen
  refine ⟨hb, e1, e2, ?_⟩
  rw [e3, tailMix_masks _ (by rw [List.length_drop]; omega)]
  rfl

/-- C11 at a key of 26 bytes (one block and a tail of ten bytes, some with the high
bit set), seed `7`. -/
theorem c11_tail_masks_witness :
    ∃ hb : Int × Int,
      bodyLoop [1, 2, 3, 4, 5, 6, 7, 8, 9, 10, 11, 12, 13, 14, 15, 16, 0x80, 1, 0xFF, 3, 4,
          5, 6, 0x90, 0xA0, 0x7F] 1 0 (((7 : Word32).val : Int), ((7 : Word32).val : Int)) =
        some hb ∧
      lanesU hb = Ref.blockPhase [1, 2, 3, 4, 5, 6, 7, 8, 9, 10, 11, 12, 13, 14, 15, 16, 0x80,
          1, 0xFF, 3, 4, 5, 6, 0x90, 0xA0, 0x7F] 1 ((7 : Word32).val, (7 : Word32).val) ∧
      x64_128 [1, 2, 3, 4, 5, 6, 7, 8, 9, 10, 11, 12, 13, 14, 15, 16, 0x80, 1, 0xFF, 3, 4, 5,
          6, 0x90, 0xA0, 0x7F]
          ([1, 2, 3, 4, 5, 6, 7, 8, 9, 10, 11, 12, 13, 14, 15, 16, 0x80, 1, 0xFF, 3, 4, 5, 6,
            0x90, 0xA0, 0x7F] : List Byte).length 7 =
        some (toI64 (Ref.finalMix
          (toU64 hb.1 ^^^ Ref.tailMask1 (([1, 2, 3, 4, 5, 6, 7, 8, 9, 10, 11, 12, 13, 14, 15,
              16, 0x80, 1, 0xFF, 3, 4, 5, 6, 0x90, 0xA0, 0x7F] : List Byte).drop (16 * 1)),
            toU64 hb.2 ^^^ Ref.tailMask2 (([1, 2, 3, 4, 5, 6, 7, 8, 9, 10, 11, 12, 13, 14, 15,
              16, 0x80, 1, 0xFF, 3, 4, 5, 6, 0x90, 0xA0, 0x7F] : List Byte).drop (16 * 1)))
          ([1, 2, 3, 4, 5, 6, 7, 8, 9, 10, 11, 12, 13, 14, 15, 16, 0x80, 1, 0xFF, 3, 4, 5, 6,
            0x90, 0xA0, 0x7F] : List Byte).length).1) :=
  c11_tail_masks [1, 2, 3, 4, 5, 6, 7, 8, 9, 10, 11, 12, 13, 14, 15, 16, 0x80, 1, 0xFF, 3, 4,
    5, 6, 0x90, 0xA0, 0x7F] 7 1 10 (by decide) (by decide) (by decide)

theorem sext_eq_zext (b : Byte) (h : b.val < 128) : Ref.sext b = Ref.zext b := by
  unfold Ref.sext Ref.zext
  rw [if_pos h]

theorem sext_shift56 (b : Byte) :
    (Ref.sext b <<< 56) % 2 ^ 64 = (Ref.zext b <<< 56) % 2 ^ 64 := by
  unfold Ref.sext Ref.zext
  rw [Nat.shiftLeft_eq, Nat.shiftLeft_eq]
  split
  · rfl
  · have hb := b.isLt
    have e : (b.val + (2 ^ 64 - 256)) * 2 ^ 56 = b.val * 2 ^ 56 + 2 ^ 64 * (2 ^ 56 - 1) := by
      norm_num
      ring
    rw [e, Nat.add_mul_mod_self_left]

theorem tailWord_congr (l : List Byte) (sh : Nat)
    (h : ∀ (i : Nat) (b : Byte), l[i]? = some b →
      (Ref.sext b <<< (sh + 8 * i)) % 2 ^ 64 = (Ref.zext b <<< (sh + 8 * i)) % 2 ^ 64) :
    Ref.tailWord Ref.sext l sh = Ref.tailWord Ref.zext l sh := by
  induction l generalizing sh with
  | nil => rfl
  | cons a l ih =>
    have e0 := h 0 a (by simp)
    rw [Nat.mul_zero, Nat.add_zero] at e0
    rw [Ref.tailWord, Ref.tailWord, e0, ih (sh + 8)]
    intro i b hb
    have e := h (i + 1) b (by rw [List.getElem?_cons_succ]; exact hb)
    have e2 : sh + 8 * (i + 1) = sh + 8 + 8 * i := by omega
    rw [e2] at e
    exact e

theorem tailMix_sext_zext (tail : List Byte) (h : Nat × Nat)
    (hs : ∀ (i : Nat) (b : Byte), tail[i]? = some b → i ≠ 7 → b.val < 128) :
    Ref.tailMix Ref.sext tail h = Ref.tailMix Ref.zext tail h := by
  have e1 : Ref.tailWord Ref.sext (tail.take 8) 0 = Ref.tailWord Ref.zext (tail.take 8) 0 := by
    apply tailWord_congr
    intro i b hb
    by_cases h7 : i = 7
    · subst h7
      exact sext_shift56 b
    · rw [List.getElem?_take] at hb
      split at hb
      · rw [sext_eq_zext b (hs i b hb h7)]
      · cases hb
  have e2 : Ref.tailWord Ref.sext (tail.drop 8) 0 = Ref.tailWord Ref.zext (tail.drop 8) 0 := by
    apply tailWord_congr
    intro i b hb
    rw [List.getElem?_drop] at hb
    rw [sext_eq_zext b (hs (8 + i) b hb (by omega))]
  unfold Ref.tailMix
  rw [e1, e2]

/-- C14: when every tail byte at a tail index other than 7 is below `0x80`, `x64_128`
returns the low 64 bits of the public-domain MurmurHash3 x64-128 digest (tail bytes
read as unsigned octets), whatever the block bytes and the byte at tail index 7. -/
theorem c14_agrees_with_unsigned (data : List Byte) (seed : Word32)
    (hlen : data.length < 2 ^ 31)
    (hs : ∀ (i : Nat) (b : Byte), (data.drop (16 * (data.length / 16)))[i]? = some b →
      i ≠ 7 → b.val < 128) :
    x64_128 data data.length seed =
      some (toI64 (Ref.murmur3_x64_128 Ref.zext data seed.val).1) := by
  rw [x64_128_sext data seed hlen]
  unfold Ref.murmur3_x64_128
  simp only
  rw [tailMix_sext_zext _ _ hs]

/-- C14 at the eight-byte key `[1, 2, 3, 4, 5, 6, 7, 0xFF]` (the byte at tail index 7
has its high bit set), seed `0`. -/
theorem c14_agrees_with_unsigned_witness :
    x64_128 [1, 2, 3, 4, 5, 6, 7, 0xFF] ([1, 2, 3, 4, 5, 6, 7, 0xFF] : List Byte).length 0 =
      some (toI64 (Ref.murmur3_x64_128 Ref.zext [1, 2, 3, 4, 5, 6, 7, 0xFF]
        (0 : Word32).val).1) :=
  c14_agrees_with_unsigned [1, 2, 3, 4, 5, 6, 7, 0xFF] 0 (by decide) (by
    intro i b hb h7
    have e : ([1, 2, 3, 4, 5, 6, 7, 0xFF] : List Byte).drop
        (16 * (([1, 2, 3, 4, 5, 6, 7, 0xFF] : List Byte).length / 16)) =
        [1, 2, 3, 4, 5, 6, 7, 0xFF] := rfl
    rw [e] at hb
    rcases i with _ | _ | _ | _ | _ | _ | _ | _ | i
    all_goals first
      | exact absurd rfl h7
      | (simp at hb; subst hb; decide)
      | simp at hb)

theorem tailMix_zeros (k : Nat) (hk : k ≤ 15) (h : Nat × Nat) :
    Ref.tailMix Ref.sext (List.replicate k 0) h = h := by
  have a1 : ∀ j, j ≤ 8 → Ref.mix1 (Ref.tailWord Ref.sext (List.replicate j 0) 0) = 0 := by
    intro j hj
    interval_cases j <;> decide
  have a2 : ∀ j, j ≤ 7 → Ref.mix2 (Ref.tailWord Ref.sext (List.replicate j 0) 0) = 0 := by
    intro j hj
    interval_cases j <;> decide
  unfold Ref.tailMix
  rw [List.take_replicate, List.drop_replicate, a1 _ (by omega), a2 _ (by omega)]
  simp

/-- C15: for every seed `s` and every `n ≤ 15`, the key made of `n` zero bytes hashes
under `s` to the same value as the empty key under the seed `s XOR n`; in particular
`x64_128([0x00], 0) = x64_128([], 1)`. -/
theorem c15_zero_tail_seed_collision (s s' : Word32) (n : Nat) (hn : n ≤ 15)
    (hs : s'.val = s.val ^^^ n) :
    x64_128 (List.replicate n 0) n s = x64_128 [] 0 s' ∧
    x64_128 [0x00] 1 0 = x64_128 [] 0 1 := by
  refine ⟨?_, by decide⟩
  have e1 := x64_128_sext (List.replicate n 0) s (by rw [List.length_replicate]; omega)
  have e2 := x64_128_sext [] s' (by decide)
  rw [List.length_replicate] at e1
  rw [List.length_nil] at e2
  rw [e1, e2]
  have hd : n / 16 = 0 := by omega
  have l : Ref.murmur3_x64_128 Ref.sext (List.replicate n 0) s.val =
      Ref.finalMix (s.val, s.val) n := by
    unfold Ref.murmur3_x64_128
    simp only [List.length_replicate, hd, Nat.mul_zero, List.drop_zero]
    rw [tailMix_zeros n hn]
    rfl
  have r : Ref.murmur3_x64_128 Ref.sext [] s'.val = Ref.finalMix (s'.val, s'.val) 0 := rfl
  rw [l, r, hs]
  simp only [Ref.finalMix, Nat.xor_zero]

/-- C15 at seed `5` and `n = 3`, where `5 XOR 3 = 6`. -/
theorem c15_zero_tail_seed_collision_witness :
    x64_128 (List.replicate 3 0) 3 5 = x64_128 [] 0 6 ∧
    x64_128 [0x00] 1 0 = x64_128 [] 0 1 :=
  c15_zero_tail_seed_collision 5 6 3 (by decide) (by decide)

end Murmur
